import Mathlib

/-!
Verification of the trajectory-analysis core of the ensemble_md package
(module `analysis/analyze_traj.py`): the trajectory stitcher
(`stitch_trajs`), the transition-matrix builder (`traj2transmtx`) and the
transit-time event detector (`plot_transit_time`), embedded shallowly over
integer sequences.  Raw dhdl file handles are modelled as their already
extracted state sequences (the external StateSequenceSource becomes the
identity), Python/numpy list indexing is modelled with its negative-index
wrap-around semantics, and every Python exception becomes an explicit
`Except` error value.
-/

set_option autoImplicit false

/-- The error taxonomy of the spec: `InputShapeError` stands for the Python
IndexError raised by a failed table lookup inside the stitcher (a
shape/consistency mismatch among `segments`, `assignment`, `shifts`),
`IndexRangeError` for the numpy IndexError raised by an out-of-range state
index, `IndexError` for a raw Python list IndexError outside those two
roles, and `ValueError` for numpy's zero-size-reduction ValueError. -/
inductive AErr
  | InputShapeError
  | IndexRangeError
  | IndexError
  | ValueError
  deriving DecidableEq

instance exceptDecEq {ε α : Type} [DecidableEq ε] [DecidableEq α] : DecidableEq (Except ε α)
  | .ok x, .ok y =>
    if h : x = y then .isTrue (by rw [h]) else .isFalse (fun hh => h (Except.ok.inj hh))
  | .ok _, .error _ => .isFalse (fun hh => Except.noConfusion hh)
  | .error _, .ok _ => .isFalse (fun hh => Except.noConfusion hh)
  | .error e, .error f =>
    if h : e = f then .isTrue (by rw [h]) else .isFalse (fun hh => h (Except.error.inj hh))

/-- Python list indexing `l[i]`: nonnegative indices are looked up directly,
negative indices wrap around by adding `len(l)`, anything still out of range
is an IndexError (`none`). -/
def pyGet {α : Type} (l : List α) (i : ℤ) : Option α :=
  if 0 ≤ i then l.get? i.toNat
  else if 0 ≤ i + l.length then l.get? (i + l.length).toNat
  else none

/-- Turn a failed lookup into the stated error. -/
def expectE {α : Type} (e : AErr) : Option α → Except AErr α
  | some a => .ok a
  | none => .error e

/-- Effectful map over a list in the `Except` monad, mirroring a Python
`for` loop whose body may raise: the first raised error aborts the loop. -/
def exMapM {α β : Type} (f : α → Except AErr β) : List α → Except AErr (List β)
  | [] => .ok []
  | a :: as =>
    match f a with
    | .error e => .error e
    | .ok b =>
      match exMapM f as with
      | .error e => .error e
      | .ok bs => .ok (b :: bs)

/-! ## The trajectory stitcher (`stitch_trajs`, analyze_traj.py lines 41-89)

`dhdl_files[replica][iteration]` is modelled as the state sequence the dhdl
file would extract to; `rep_trajs[config][iteration]` is the replica index
(an arbitrary integer, indexed with Python semantics); `shifts[replica]` is
the per-replica global-index offset. -/

/-- The lookup `dhdl_files[rep_trajs[i][j]][j]` of line 73.  All four
accesses are Python list indexing; a failure is the IndexError that the
spec's taxonomy calls InputShapeError. -/
def lookupFile (dhdl_files : List (List (List ℤ))) (rep_trajs : List (List ℤ))
    (i j : ℕ) : Except AErr (List ℤ) :=
  match rep_trajs.get? i with
  | none => .error .InputShapeError
  | some ri =>
    match ri.get? j with
    | none => .error .InputShapeError
    | some r =>
      match pyGet dhdl_files r with
      | none => .error .InputShapeError
      | some files =>
        match files.get? j with
        | none => .error .InputShapeError
        | some seg => .ok seg

/-- The body of the stitching loop of lines 78-87 for one `(i, j)`:
extract `dhdl_sorted[i][j]`, drop the first frame unless `j = 0`, and add
`shifts[rep_trajs[i][j]]` to every frame. -/
def stitchBody (dhdl_sorted : List (List (List ℤ))) (rep_trajs : List (List ℤ))
    (shifts : List ℤ) (i j : ℕ) : Except AErr (List ℤ) :=
  match (dhdl_sorted.get? i).bind (fun si => si.get? j) with
  | none => .error .InputShapeError
  | some seg =>
    let traj := if j = 0 then seg else seg.drop 1
    match (rep_trajs.get? i).bind (fun ri => ri.get? j) with
    | none => .error .InputShapeError
    | some shift_idx =>
      match pyGet shifts shift_idx with
      | none => .error .InputShapeError
      | some s => .ok (traj.map (· + s))

/-- The stitched trajectory of configuration `i` (the `state_trajs[i].extend`
accumulation of lines 78-87): the per-iteration pieces concatenated. -/
def stitchConfig (dhdl_sorted : List (List (List ℤ))) (rep_trajs : List (List ℤ))
    (shifts : List ℤ) (n_iter i : ℕ) : Except AErr (List ℤ) :=
  match exMapM (fun j => stitchBody dhdl_sorted rep_trajs shifts i j) (List.range n_iter) with
  | .error e => .error e
  | .ok pieces => .ok pieces.flatten

/-- `stitch_trajs(dhdl_files, rep_trajs, shifts)` (lines 65-89): first the
sorting pass building `dhdl_sorted[i][j] = dhdl_files[rep_trajs[i][j]][j]`
(lines 70-73, with `n_configs = len(dhdl_files)` and
`n_iter = len(dhdl_files[0])` of lines 65-66), then per configuration the
stitching pass of lines 76-87. -/
def stitch_trajs (dhdl_files : List (List (List ℤ))) (rep_trajs : List (List ℤ))
    (shifts : List ℤ) : Except AErr (List (List ℤ)) :=
  match dhdl_files.get? 0 with
  | none => .error .InputShapeError
  | some files0 =>
    match exMapM (fun i => exMapM (fun j => lookupFile dhdl_files rep_trajs i j)
        (List.range files0.length)) (List.range dhdl_files.length) with
    | .error e => .error e
    | .ok dhdl_sorted =>
      exMapM (fun i => stitchConfig dhdl_sorted rep_trajs shifts files0.length i)
        (List.range dhdl_files.length)

/-- The replica occupied by configuration `i` during iteration `j`
(`rep_trajs[i][j]`), with defaults that are only read under `StitchWF`. -/
def repOf (rep_trajs : List (List ℤ)) (i j : ℕ) : ℤ :=
  (((rep_trajs.get? i).getD []).get? j).getD 0

/-- The raw segment configuration `i` visited at iteration `j`
(`dhdl_files[rep_trajs[i][j]][j]`), with defaults only read under
`StitchWF`. -/
def segOf (dhdl_files : List (List (List ℤ))) (rep_trajs : List (List ℤ))
    (i j : ℕ) : List ℤ :=
  (((pyGet dhdl_files (repOf rep_trajs i j)).getD []).get? j).getD []

/-- The shift applied to configuration `i`'s samples of iteration `j`
(`shifts[rep_trajs[i][j]]`). -/
def shiftOf (rep_trajs : List (List ℤ)) (shifts : List ℤ) (i j : ℕ) : ℤ :=
  (pyGet shifts (repOf rep_trajs i j)).getD 0

/-- Well-formedness of a stitching input: every `(replica, iteration)` pair
referenced by the assignment resolves in the segment table and the shift
table.  Decidable, so concrete witnesses can discharge it by `decide`. -/
def StitchWF (dhdl_files : List (List (List ℤ))) (rep_trajs : List (List ℤ))
    (shifts : List ℤ) : Prop :=
  dhdl_files ≠ [] ∧
  ∀ i, i < dhdl_files.length → ∀ j, j < dhdl_files.headI.length →
    ((rep_trajs.get? i).isSome ∧ (((rep_trajs.get? i).getD []).get? j).isSome ∧
     (pyGet dhdl_files (repOf rep_trajs i j)).isSome ∧
     j < ((pyGet dhdl_files (repOf rep_trajs i j)).getD []).length ∧
     (pyGet shifts (repOf rep_trajs i j)).isSome)

instance stitchWFDec (df : List (List (List ℤ))) (rt : List (List ℤ)) (sh : List ℤ) :
    Decidable (StitchWF df rt sh) := by
  unfold StitchWF
  infer_instance

/-- Closed form of one stitched trajectory: for each iteration `j`, the
segment (whole at `j = 0`, first frame dropped otherwise) shifted by the
occupied replica's shift, all concatenated in iteration order. -/
def stitchPiece (dhdl_files : List (List (List ℤ))) (rep_trajs : List (List ℤ))
    (shifts : List ℤ) (i j : ℕ) : List ℤ :=
  (if j = 0 then segOf dhdl_files rep_trajs i j
   else (segOf dhdl_files rep_trajs i j).drop 1).map (· + shiftOf rep_trajs shifts i j)

/-- Closed form of the full stitched trajectory of configuration `i`. -/
def stitchModel (dhdl_files : List (List (List ℤ))) (rep_trajs : List (List ℤ))
    (shifts : List ℤ) (i : ℕ) : List ℤ :=
  ((List.range dhdl_files.headI.length).map (stitchPiece dhdl_files rep_trajs shifts i)).flatten

/-! ## The transition-matrix builder (`traj2transmtx`, lines 92-121)

`transmtx[traj[i-1], traj[i]] += 1` is numpy indexing: an index is valid
iff it lies in `[-N, N)`, negative indices wrap by adding `N`, anything
else raises the IndexError the spec calls IndexRangeError.  Matrix entries
are modelled as rationals. -/

/-- numpy index resolution for an axis of size `N`. -/
def npIdx (N : ℕ) (v : ℤ) : Option ℕ :=
  if 0 ≤ v ∧ v < (N : ℤ) then some v.toNat
  else if -(N : ℤ) ≤ v ∧ v < 0 then some (v + N).toNat
  else none

/-- Increment the `(a, b)` cell of a count table. -/
def bump (c : ℕ → ℕ → ℕ) (a b : ℕ) : ℕ → ℕ → ℕ :=
  fun x y => if x = a ∧ y = b then c x y + 1 else c x y

/-- The counting loop `for i in range(1, len(traj))` of line 115-116:
`prev` is `traj[i-1]`, the list argument holds `traj[i], ...`. -/
def countPairs (N : ℕ) : ℤ → List ℤ → (ℕ → ℕ → ℕ) → Except AErr (ℕ → ℕ → ℕ)
  | _, [], c => .ok c
  | prev, x :: xs, c =>
    match npIdx N prev, npIdx N x with
    | some a, some b => countPairs N x xs (bump c a b)
    | _, _ => .error .IndexRangeError

/-- Row sum of the count table (the `np.sum(transmtx, axis=1)` of
line 118). -/
def rowSum (N : ℕ) (c : ℕ → ℕ → ℕ) (i : ℕ) : ℕ :=
  ((List.range N).map (c i)).sum

/-- `traj2transmtx(traj, N, normalize)` (lines 114-121).  When normalizing,
each entry is `count / rowsum`; a zero row would give `0/0 = nan` in numpy,
which line 119 overrides to `0`, modelled by the explicit zero-row case
(a positive count over a zero row sum is impossible, so `inf` never
arises). -/
def traj2transmtx (traj : List ℤ) (N : ℕ) (normalize : Bool) :
    Except AErr (List (List ℚ)) :=
  match (match traj with
         | [] => .ok (fun _ _ => 0)
         | t :: ts => countPairs N t ts (fun _ _ => 0) : Except AErr (ℕ → ℕ → ℕ)) with
  | .error e => .error e
  | .ok c =>
    if normalize then
      .ok ((List.range N).map fun i =>
        (List.range N).map fun j =>
          if (rowSum N c i : ℚ) = 0 then 0 else (c i j : ℚ) / (rowSum N c i : ℚ))
    else
      .ok ((List.range N).map fun i => (List.range N).map fun j => ((c i j : ℕ) : ℚ))

/-- The `N × N` all-zero matrix. -/
def zeroMtx (N : ℕ) : List (List ℚ) :=
  (List.range N).map fun _ => (List.range N).map fun _ => (0 : ℚ)

/-! ## The transit-time event detector (`plot_transit_time`, lines 262-420)

The embedding covers the computational core with `dt = None` (the only
setting the spec's claims exercise): the per-trajectory scan of lines
309-333, the reconciliation and round-trip sum of lines 335-341, and the
event-collection branch of lines 343-369 including the scientific-notation
check of line 364, whose `np.max` over three empty lists is a ValueError.
The figure-rendering code of lines 371-419 is out of the spec's scope and
is not modelled; the returned `units` is the `'step'` of line 295. -/

/-- The mutable scan state of lines 311-318. -/
structure TransitState where
  lastVisited : Option ℤ
  t0 : List ℤ
  tk : List ℤ
  t0k : List ℤ
  tk0 : List ℤ
  end0 : Bool
  endk : Bool
  deriving DecidableEq

/-- The `if traj[t] == 0` block of lines 320-326.  `t_k[-1]` on an empty
list would be an IndexError; the guard `last_visited == k` makes it
unreachable, which `transitScan_inv` proves. -/
def stepZero (k t v : ℤ) (s : TransitState) : Except AErr TransitState :=
  if v = 0 then
    let s1 : TransitState := { s with end0 := true }
    if s1.lastVisited = some 0 then
      .ok { s1 with lastVisited := some 0 }
    else
      let s2 : TransitState := { s1 with t0 := s1.t0 ++ [t] }
      if s2.lastVisited = some k then
        match s2.tk.getLast? with
        | none => .error .IndexRangeError
        | some tlast => .ok { s2 with tk0 := s2.tk0 ++ [t - tlast], lastVisited := some 0 }
      else .ok { s2 with lastVisited := some 0 }
  else .ok s

/-- The `if traj[t] == k` block of lines 327-333. -/
def stepK (k t v : ℤ) (s : TransitState) : Except AErr TransitState :=
  if v = k then
    let s1 : TransitState := { s with endk := true }
    if s1.lastVisited = some k then
      .ok { s1 with lastVisited := some k }
    else
      let s2 : TransitState := { s1 with tk := s1.tk ++ [t] }
      if s2.lastVisited = some 0 then
        match s2.t0.getLast? with
        | none => .error .IndexRangeError
        | some tlast => .ok { s2 with t0k := s2.t0k ++ [t - tlast], lastVisited := some k }
      else .ok { s2 with lastVisited := some k }
  else .ok s

/-- One iteration of the scan loop: first the `0` block, then the `k`
block on the updated state (both run when `k = 0`). -/
def transitStep (k t v : ℤ) (s : TransitState) : Except AErr TransitState :=
  match stepZero k t v s with
  | .error e => .error e
  | .ok s1 => stepK k t v s1

/-- The scan loop `for t in range(len(traj))` of line 319, carrying the
current time index. -/
def transitScanGo (k : ℤ) : ℕ → List ℤ → TransitState → Except AErr TransitState
  | _, [], s => .ok s
  | t, v :: vs, s =>
    match transitStep k (t : ℤ) v s with
    | .error e => .error e
    | .ok s1 => transitScanGo k (t + 1) vs s1

/-- The initial scan state of lines 311-318. -/
def initState : TransitState :=
  { lastVisited := none, t0 := [], tk := [], t0k := [], tk0 := [], end0 := false, endk := false }

/-- The whole scan of one trajectory with `k = N - 1`. -/
def transitScan (traj : List ℤ) (N : ℤ) : Except AErr TransitState :=
  transitScanGo (N - 1) 0 traj initState

/-- The reconciliation of lines 336-340: when the two duration lists have
different lengths, `pop()` the longer one. -/
def reconcile (f b : List ℤ) : List ℤ × List ℤ :=
  if f.length ≠ b.length then
    if f.length > b.length then (f.dropLast, b) else (f, b.dropLast)
  else (f, b)

/-- Scan plus reconciliation plus the round-trip element-wise sum of line
341 (`np.array(t_0k) + np.array(t_k0)` on equal-length arrays), returning
also the two boundary-visited flags. -/
def detectOne (traj : List ℤ) (N : ℤ) :
    Except AErr (List ℤ × List ℤ × List ℤ × Bool × Bool) :=
  match transitScan traj N with
  | .error e => .error e
  | .ok s =>
    let fb := reconcile s.t0k s.tk0
    .ok (fb.1, fb.2, List.zipWith (· + ·) fb.1 fb.2, s.end0, s.endk)

/-- Line 364: `if sci is False and np.max([t_0k, t_k0, t_roundtrip]) >= 10000`.
Python `and` short-circuits, so the `np.max` only runs while `sci` is still
false; `np.max` over three empty lists is a zero-size-reduction
ValueError. -/
def sciCheck (sci : Bool) (f b rt : List ℤ) : Except AErr Bool :=
  if sci then .ok sci
  else
    match (f ++ b ++ rt).max? with
    | none => .error .ValueError
    | some m => .ok (decide (10000 ≤ m))

/-- The per-configuration loop of lines 309-369 (with `dt = None`),
threading the cross-configuration `sci` flag and collecting the three
per-configuration duration lists; a configuration that never visited both
boundaries contributes empty lists (lines 366-369). -/
def goConfigs (N : ℤ) : List (List ℤ) → Bool → Except AErr (List (List ℤ) × List (List ℤ) × List (List ℤ))
  | [], _ => .ok ([], [], [])
  | traj :: rest, sci =>
    match detectOne traj N with
    | .error e => .error e
    | .ok (f, b, rt, e0, ek) =>
      if e0 && ek then
        match sciCheck sci f b rt with
        | .error e => .error e
        | .ok sci1 =>
          match goConfigs N rest sci1 with
          | .error e => .error e
          | .ok (l0, l1, l2) => .ok (f :: l0, b :: l1, rt :: l2)
      else
        match goConfigs N rest sci with
        | .error e => .error e
        | .ok (l0, l1, l2) => .ok ([] :: l0, [] :: l1, [] :: l2)

/-- `plot_transit_time(trajs, N)` with `dt = None`: line 294's
`len(trajs[0])` is an IndexError on an empty input list, then the
per-configuration loop runs and the three lists of per-configuration
duration lists are returned together with the `'step'` unit label. -/
def plot_transit_time (trajs : List (List ℤ)) (N : ℤ) :
    Except AErr (List (List ℤ) × List (List ℤ) × List (List ℤ) × String) :=
  match trajs.get? 0 with
  | none => .error .IndexError
  | some _ =>
    match goConfigs N trajs false with
    | .error e => .error e
    | .ok (a, b, c) => .ok (a, b, c, "step")

/-- The invariant of the transit scan loop: the last-visited marker only
ever holds a boundary; the arrival-time list of the last-visited boundary
is nonempty (so the `t_0[-1]` / `t_k[-1]` accesses of lines 332 and 325
cannot fail); and forward (`0 to k`) and backward (`k to 0`) events
alternate, keeping the two duration lists within one element of each
other. -/
def TransitInv (k : ℤ) (s : TransitState) : Prop :=
  (s.lastVisited = none → s.t0k = [] ∧ s.tk0 = []) ∧
  (∀ x, s.lastVisited = some x → x = 0 ∨ x = k) ∧
  (s.lastVisited = some 0 → s.t0 ≠ [] ∧ s.t0k.length ≤ s.tk0.length ∧
    s.tk0.length ≤ s.t0k.length + 1) ∧
  (s.lastVisited = some k → (k = 0 ∨ s.tk ≠ []) ∧ s.tk0.length ≤ s.t0k.length ∧
    s.t0k.length ≤ s.tk0.length + 1)

/-! ## Helper lemmas -/

theorem exMapM_ok_of {α β : Type} (f : α → Except AErr β) (g : α → β) :
    ∀ l : List α, (∀ a ∈ l, f a = .ok (g a)) → exMapM f l = .ok (l.map g)
  | [], _ => rfl
  | a :: as, h => by
    have ha := h a (List.mem_cons_self a as)
    have hr := exMapM_ok_of f g as (fun x hx => h x (List.mem_cons_of_mem a hx))
    simp [exMapM, ha, hr]

theorem exMapM_ok_mem {α β : Type} {f : α → Except AErr β} :
    ∀ {l : List α} {bs : List β}, exMapM f l = .ok bs → ∀ a ∈ l, ∃ b, f a = .ok b := by
  intro l
  induction l with
  | nil => intro bs _ a ha; cases ha
  | cons x xs ih =>
    intro bs hok a ha
    revert hok
    unfold exMapM
    cases hfx : f x with
    | error e => intro hok; cases hok
    | ok b =>
      cases hrest : exMapM f xs with
      | error e => intro hok; cases hok
      | ok bs2 =>
        intro _
        rcases List.mem_cons.mp ha with h | h
        · exact ⟨b, h ▸ hfx⟩
        · exact ih hrest a h

theorem exMapM_error_mem {α β : Type} {f : α → Except AErr β} :
    ∀ {l : List α} {e : AErr}, exMapM f l = .error e → ∃ a ∈ l, f a = .error e := by
  intro l
  induction l with
  | nil => intro e h; cases h
  | cons x xs ih =>
    intro e
    unfold exMapM
    cases hfx : f x with
    | error e1 => intro h; cases h; exact ⟨x, List.mem_cons_self x xs, hfx⟩
    | ok b =>
      cases hrest : exMapM f xs with
      | error e2 =>
        intro h
        cases h
        obtain ⟨a, ha, hfa⟩ := ih hrest
        exact ⟨a, List.mem_cons_of_mem x ha, hfa⟩
      | ok bs => intro h; cases h

theorem headI_of_get?_zero {α : Type} [Inhabited α] {l : List α} {a : α}
    (h : l.get? 0 = some a) : l.headI = a := by
  cases l with
  | nil => cases h
  | cons x xs => cases h; rfl

theorem get?_zero_of_ne_nil {α : Type} [Inhabited α] {l : List α} (h : l ≠ []) :
    l.get? 0 = some l.headI := by
  cases l with
  | nil => cases h rfl
  | cons x xs => rfl

/-! ## Stitcher: closed form under well-formed input -/

theorem lookupFile_eq {df : List (List (List ℤ))} {rt : List (List ℤ)} {sh : List ℤ}
    (h : StitchWF df rt sh) {i j : ℕ} (hi : i < df.length) (hj : j < df.headI.length) :
    lookupFile df rt i j = .ok (segOf df rt i j) := by
  obtain ⟨-, hwf⟩ := h
  obtain ⟨h1, h2, h3, h4, -⟩ := hwf i hi j hj
  obtain ⟨ri, hri⟩ := Option.isSome_iff_exists.mp h1
  rw [hri] at h2
  simp only [Option.getD_some] at h2
  obtain ⟨r, hr⟩ := Option.isSome_iff_exists.mp h2
  have hrep : repOf rt i j = r := by
    unfold repOf
    rw [hri]
    simp only [Option.getD_some]
    rw [hr]
    simp only [Option.getD_some]
  rw [hrep] at h3 h4
  obtain ⟨fr, hfr⟩ := Option.isSome_iff_exists.mp h3
  rw [hfr] at h4
  simp only [Option.getD_some] at h4
  have hs : fr.get? j = some (fr.get ⟨j, h4⟩) := List.get?_eq_get h4
  have hseg : segOf df rt i j = fr.get ⟨j, h4⟩ := by
    unfold segOf
    rw [hrep, hfr]
    simp only [Option.getD_some]
    rw [hs]
    simp only [Option.getD_some]
  rw [hseg]
  simp only [lookupFile, hri, hr, hrep, hfr, hs]

theorem stitchWF_rep {df : List (List (List ℤ))} {rt : List (List ℤ)} {sh : List ℤ}
    (h : StitchWF df rt sh) {i j : ℕ} (hi : i < df.length) (hj : j < df.headI.length) :
    (rt.get? i).bind (fun ri => ri.get? j) = some (repOf rt i j) := by
  obtain ⟨-, hwf⟩ := h
  obtain ⟨h1, h2, -, -, -⟩ := hwf i hi j hj
  obtain ⟨ri, hri⟩ := Option.isSome_iff_exists.mp h1
  rw [hri] at h2
  simp only [Option.getD_some] at h2
  obtain ⟨r, hr⟩ := Option.isSome_iff_exists.mp h2
  have hrep : repOf rt i j = r := by
    unfold repOf
    rw [hri]
    simp only [Option.getD_some]
    rw [hr]
    simp only [Option.getD_some]
  rw [hri, hrep]
  simp only [Option.some_bind]
  exact hr

theorem stitchWF_shift {df : List (List (List ℤ))} {rt : List (List ℤ)} {sh : List ℤ}
    (h : StitchWF df rt sh) {i j : ℕ} (hi : i < df.length) (hj : j < df.headI.length) :
    pyGet sh (repOf rt i j) = some (shiftOf rt sh i j) := by
  have h5 := (h.2 i hi j hj).2.2.2.2
  obtain ⟨s, hsh⟩ := Option.isSome_iff_exists.mp h5
  rw [hsh]
  unfold shiftOf
  rw [hsh]
  simp only [Option.getD_some]

theorem stitchBody_eq {ds df : List (List (List ℤ))} {rt : List (List ℤ)} {sh : List ℤ}
    {i j : ℕ}
    (hseg : (ds.get? i).bind (fun si => si.get? j) = some (segOf df rt i j))
    (hrep : (rt.get? i).bind (fun ri => ri.get? j) = some (repOf rt i j))
    (hsh : pyGet sh (repOf rt i j) = some (shiftOf rt sh i j)) :
    stitchBody ds rt sh i j = .ok (stitchPiece df rt sh i j) := by
  simp only [stitchBody, hseg, hrep, hsh, stitchPiece]

theorem stitchConfig_eq {ds df : List (List (List ℤ))} {rt : List (List ℤ)} {sh : List ℤ}
    {n_iter i : ℕ}
    (hbody : ∀ j, j < n_iter → stitchBody ds rt sh i j = .ok (stitchPiece df rt sh i j)) :
    stitchConfig ds rt sh n_iter i
      = .ok ((List.range n_iter).map (stitchPiece df rt sh i)).flatten := by
  unfold stitchConfig
  rw [exMapM_ok_of (fun j => stitchBody ds rt sh i j) (stitchPiece df rt sh i)
    (List.range n_iter) (fun j hj => hbody j (List.mem_range.mp hj))]

theorem stitch_eq_model (df : List (List (List ℤ))) (rt : List (List ℤ)) (sh : List ℤ)
    (h : StitchWF df rt sh) :
    stitch_trajs df rt sh = .ok ((List.range df.length).map (stitchModel df rt sh)) := by
  have hne := h.1
  have h0 : df.get? 0 = some df.headI := get?_zero_of_ne_nil hne
  have hphase1 : exMapM (fun i => exMapM (fun j => lookupFile df rt i j)
        (List.range df.headI.length)) (List.range df.length)
      = .ok ((List.range df.length).map
          (fun i => (List.range df.headI.length).map (segOf df rt i))) := by
    apply exMapM_ok_of
    intro i hi
    apply exMapM_ok_of
    intro j hj
    exact lookupFile_eq h (List.mem_range.mp hi) (List.mem_range.mp hj)
  have hsget : ∀ i, i < df.length → ∀ j, j < df.headI.length →
      ((((List.range df.length).map
          (fun i => (List.range df.headI.length).map (segOf df rt i))).get? i).bind
        (fun si => si.get? j)) = some (segOf df rt i j) := by
    intro i hi j hj
    rw [List.get?_map, List.get?_range hi]
    simp only [Option.map_some', Option.some_bind]
    rw [List.get?_map, List.get?_range hj]
    rfl
  calc stitch_trajs df rt sh
      = match exMapM (fun i => exMapM (fun j => lookupFile df rt i j)
            (List.range df.headI.length)) (List.range df.length) with
        | .error e => .error e
        | .ok dhdl_sorted =>
          exMapM (fun i => stitchConfig dhdl_sorted rt sh df.headI.length i)
            (List.range df.length) := by
        unfold stitch_trajs
        rw [h0]
    _ = .ok ((List.range df.length).map (stitchModel df rt sh)) := by
        rw [hphase1]
        simp only
        apply exMapM_ok_of
        intro i hi
        have hi' := List.mem_range.mp hi
        unfold stitchModel
        exact stitchConfig_eq (fun j hj =>
          stitchBody_eq (hsget i hi' j hj) (stitchWF_rep h hi' hj) (stitchWF_shift h hi' hj))

theorem lookupFile_error {df : List (List (List ℤ))} {rt : List (List ℤ)} {i j : ℕ}
    {e : AErr} (h : lookupFile df rt i j = .error e) : e = .InputShapeError := by
  unfold lookupFile at h
  repeat' split at h
  all_goals first
    | exact (Except.error.inj h).symm
    | exact Except.noConfusion h

theorem stitchBody_error {ds : List (List (List ℤ))} {rt : List (List ℤ)} {sh : List ℤ}
    {i j : ℕ} {e : AErr} (h : stitchBody ds rt sh i j = .error e) : e = .InputShapeError := by
  unfold stitchBody at h
  repeat' split at h
  all_goals first
    | exact (Except.error.inj h).symm
    | exact Except.noConfusion h

theorem stitchConfig_error {ds : List (List (List ℤ))} {rt : List (List ℤ)} {sh : List ℤ}
    {n i : ℕ} {e : AErr} (h : stitchConfig ds rt sh n i = .error e) : e = .InputShapeError := by
  unfold stitchConfig at h
  cases hm : exMapM (fun j => stitchBody ds rt sh i j) (List.range n) with
  | error e1 =>
    rw [hm] at h
    obtain ⟨a, -, hb⟩ := exMapM_error_mem hm
    rw [← Except.error.inj h]
    exact stitchBody_error hb
  | ok ps => rw [hm] at h; exact Except.noConfusion h

theorem stitch_error_shape {df : List (List (List ℤ))} {rt : List (List ℤ)} {sh : List ℤ}
    {e : AErr} (h : stitch_trajs df rt sh = .error e) : e = .InputShapeError := by
  unfold stitch_trajs at h
  split at h
  · exact (Except.error.inj h).symm
  · split at h
    · rename_i e1 hp1
      obtain ⟨a, -, ha⟩ := exMapM_error_mem hp1
      obtain ⟨b, -, hb⟩ := exMapM_error_mem ha
      rw [← Except.error.inj h]
      exact lookupFile_error hb
    · obtain ⟨a, -, ha⟩ := exMapM_error_mem h
      exact stitchConfig_error ha

theorem stitchModel_decomp (df : List (List (List ℤ))) (rt : List (List ℤ))
    (sh : List ℤ) (i : ℕ) (hn : 0 < df.headI.length) :
    stitchModel df rt sh i
      = (segOf df rt i 0).map (· + shiftOf rt sh i 0) ++
        ((List.range (df.headI.length - 1)).map (fun j =>
          ((segOf df rt i (j + 1)).drop 1).map (· + shiftOf rt sh i (j + 1)))).flatten := by
  unfold stitchModel
  obtain ⟨m, hm⟩ : ∃ m, df.headI.length = m + 1 := ⟨df.headI.length - 1, by omega⟩
  have hm1 : df.headI.length - 1 = m := by omega
  rw [hm1, hm, List.range_succ_eq_map, List.map_cons, List.flatten_cons]
  have h1 : stitchPiece df rt sh i 0 = (segOf df rt i 0).map (· + shiftOf rt sh i 0) := by
    simp [stitchPiece]
  have h2 : (List.map (stitchPiece df rt sh i) (List.map Nat.succ (List.range m))).flatten
      = (List.map (fun j => ((segOf df rt i (j + 1)).drop 1).map
          (· + shiftOf rt sh i (j + 1))) (List.range m)).flatten := by
    rw [List.map_map]
    apply congrArg List.flatten
    apply List.map_congr_left
    intro j hj
    simp [stitchPiece, Function.comp, Nat.succ_eq_add_one]
  rw [h1, h2]

/-- C1 (amended): for every well-formed stitching input with at least one
iteration, configuration `i`'s stitched trajectory is iteration 1's full
segment SHIFTED by the shift entry of the replica occupied during iteration
1, followed, for every iteration `j > 1`, by that iteration's segment with
its first sample dropped and the occupied replica's shift added, all
concatenated in iteration order.  (The claim's unshifted "full raw
sequence of iteration 1" is refuted by `stitch_trajs_c1_counterexample`;
the shift of the occupied replica is applied to iteration 1 as well.) -/
theorem stitch_trajs_shifts_every_iteration
    (df : List (List (List ℤ))) (rt : List (List ℤ)) (sh : List ℤ)
    (h : StitchWF df rt sh) (hn : 0 < df.headI.length) :
    ∃ out, stitch_trajs df rt sh = .ok out ∧ ∀ i, i < df.length →
      out.get? i = some ((segOf df rt i 0).map (· + shiftOf rt sh i 0) ++
        ((List.range (df.headI.length - 1)).map (fun j =>
          ((segOf df rt i (j + 1)).drop 1).map (· + shiftOf rt sh i (j + 1)))).flatten) := by
  refine ⟨_, stitch_eq_model df rt sh h, ?_⟩
  intro i hi
  rw [List.get?_map, List.get?_range hi]
  simp only [Option.map_some']
  rw [stitchModel_decomp df rt sh i hn]

/-- C1 counterexample: in the spec's own stitching scenario but with a
nonzero shift `5` for replica 0, configuration 0's stitched trajectory is
`[5,6,7,13,14]`: iteration 1's segment `[0,1,2]` is NOT kept raw, it is
shifted by replica 0's shift, so the claim's predicted
`[0,1,2] ++ [13,14] = [0,1,2,13,14]` is wrong. -/
theorem stitch_trajs_c1_counterexample :
    stitch_trajs [[[0, 1, 2], [0]], [[0], [2, 3, 4]]] [[0, 1], [1, 0]] [5, 10]
      = .ok [[5, 6, 7, 13, 14], [10]] ∧
    ([5, 6, 7, 13, 14] : List ℤ) ≠ [0, 1, 2, 13, 14] :=
  ⟨by decide, by decide⟩

/-- C1 witness: the claim's concrete scenario (where replica 0's shift is
`0`, hiding the iteration-1 shift) evaluated through the amended theorem:
configuration 0's stitched trajectory is `[0,1,2,13,14]`. -/
theorem stitch_trajs_c1_witness :
    StitchWF [[[0, 1, 2], [0]], [[0], [2, 3, 4]]] [[0, 1], [1, 0]] [0, 10] ∧
    ∃ out, stitch_trajs [[[0, 1, 2], [0]], [[0], [2, 3, 4]]] [[0, 1], [1, 0]] [0, 10]
      = .ok out ∧ out.get? 0 = some [0, 1, 2, 13, 14] := by
  refine ⟨by decide, ?_⟩
  obtain ⟨out, hok, hall⟩ := stitch_trajs_shifts_every_iteration
    [[[0, 1, 2], [0]], [[0], [2, 3, 4]]] [[0, 1], [1, 0]] [0, 10] (by decide) (by decide)
  refine ⟨out, hok, ?_⟩
  rw [hall 0 (by decide)]
  decide

/-- C2 (amended): for every well-formed stitching input with at least one
iteration, configuration `i`'s stitched trajectory has length
`L_1 + Σ_{j>1} (L_j - 1)` computed with truncated (natural-number)
subtraction, i.e. an empty segment at an iteration `j > 1` contributes `0`,
not `-1`.  For inputs whose later segments are all nonempty this is the
claim's `L_1 + Σ_{j>1}(L_j − 1)`; the integer-subtraction reading is
refuted by `stitch_trajs_c2_counterexample`. -/
theorem stitch_trajs_length_invariant
    (df : List (List (List ℤ))) (rt : List (List ℤ)) (sh : List ℤ)
    (h : StitchWF df rt sh) (hn : 0 < df.headI.length) :
    ∃ out, stitch_trajs df rt sh = .ok out ∧ ∀ i, i < df.length →
      ∃ ti, out.get? i = some ti ∧
        ti.length = (segOf df rt i 0).length +
          ((List.range (df.headI.length - 1)).map
            (fun j => (segOf df rt i (j + 1)).length - 1)).sum := by
  refine ⟨_, stitch_eq_model df rt sh h, ?_⟩
  intro i hi
  rw [List.get?_map, List.get?_range hi]
  simp only [Option.map_some']
  refine ⟨_, rfl, ?_⟩
  rw [stitchModel_decomp df rt sh i hn]
  rw [List.length_append, List.length_map, List.length_flatten, List.map_map]
  congr 1
  apply congrArg List.sum
  apply List.map_congr_left
  intro j hj
  simp [Function.comp]

/-- C2 counterexample: one configuration, two iterations, segment lengths
`L_1 = 1` and `L_2 = 0`: the stitched trajectory is `[0]` of length `1`,
but the claim's formula gives `L_1 + (L_2 - 1) = 1 + (0 - 1) = 0`. -/
theorem stitch_trajs_c2_counterexample :
    stitch_trajs [[[0], []]] [[0, 0]] [0] = .ok [[0]] ∧
    ((([0] : List ℤ).length : ℤ) ≠ (1 : ℤ) + ((0 : ℤ) - 1)) :=
  ⟨by decide, by decide⟩

/-- C2 witness: the spec's stitching scenario, where `L_1 = 3`, `L_2 = 3`,
gives configuration 0 a stitched trajectory of length `3 + (3 - 1) = 5`. -/
theorem stitch_trajs_c2_witness :
    StitchWF [[[0, 1, 2], [0]], [[0], [2, 3, 4]]] [[0, 1], [1, 0]] [0, 10] ∧
    ∃ out, stitch_trajs [[[0, 1, 2], [0]], [[0], [2, 3, 4]]] [[0, 1], [1, 0]] [0, 10]
      = .ok out ∧ ∃ ti, out.get? 0 = some ti ∧ ti.length = 5 := by
  refine ⟨by decide, ?_⟩
  obtain ⟨out, hok, hall⟩ := stitch_trajs_length_invariant
    [[[0, 1, 2], [0]], [[0], [2, 3, 4]]] [[0, 1], [1, 0]] [0, 10] (by decide) (by decide)
  obtain ⟨ti, hti, hlen⟩ := hall 0 (by decide)
  refine ⟨out, hok, ti, hti, ?_⟩
  rw [hlen]
  decide

/-- C6: if the replica assignment references, for some configuration `i`
and iteration `j` within range, a `(replica, iteration)` pair that the
segment table cannot resolve, or a replica entry missing from the shift
table, then the stitcher fails with InputShapeError (the spec's name for
the table-lookup IndexError; no partial result is produced). -/
theorem stitch_trajs_absent_reference_error
    (df : List (List (List ℤ))) (rt : List (List ℤ)) (sh : List ℤ)
    (i j : ℕ) (ri : List ℤ) (r : ℤ)
    (hi : i < df.length) (hj : j < df.headI.length)
    (hri : rt.get? i = some ri) (hr : ri.get? j = some r)
    (habs : (pyGet df r).bind (fun fr => fr.get? j) = none ∨ pyGet sh r = none) :
    stitch_trajs df rt sh = .error .InputShapeError := by
  cases hres : stitch_trajs df rt sh with
  | error e => rw [stitch_error_shape hres]
  | ok out =>
    exfalso
    have hne : df ≠ [] := by
      intro hdf
      rw [hdf] at hi
      simp at hi
    have h0 : df.get? 0 = some df.headI := get?_zero_of_ne_nil hne
    unfold stitch_trajs at hres
    rw [h0] at hres
    simp only at hres
    cases hp1 : exMapM (fun i => exMapM (fun j => lookupFile df rt i j)
        (List.range df.headI.length)) (List.range df.length) with
    | error e1 => rw [hp1] at hres; exact Except.noConfusion hres
    | ok ds =>
      rw [hp1] at hres
      simp only at hres
      rcases habs with habs | habs
      · obtain ⟨binner, hbin⟩ := exMapM_ok_mem hp1 i (List.mem_range.mpr hi)
        obtain ⟨bseg, hbseg⟩ := exMapM_ok_mem hbin j (List.mem_range.mpr hj)
        cases hpg : pyGet df r with
        | none =>
          simp only [lookupFile, hri, hr, hpg] at hbseg
          exact Except.noConfusion hbseg
        | some fr =>
          rw [hpg] at habs
          simp only [Option.some_bind] at habs
          simp only [lookupFile, hri, hr, hpg, habs] at hbseg
          exact Except.noConfusion hbseg
      · obtain ⟨ti, hti⟩ := exMapM_ok_mem hres i (List.mem_range.mpr hi)
        unfold stitchConfig at hti
        cases hm : exMapM (fun j => stitchBody ds rt sh i j)
            (List.range df.headI.length) with
        | error e1 => rw [hm] at hti; exact Except.noConfusion hti
        | ok ps =>
          obtain ⟨p, hp⟩ := exMapM_ok_mem hm j (List.mem_range.mpr hj)
          cases hds : (ds.get? i).bind (fun si => si.get? j) with
          | none =>
            simp only [stitchBody, hds] at hp
            exact Except.noConfusion hp
          | some seg =>
            simp only [stitchBody, hds, hri, Option.some_bind, hr, habs] at hp
            exact Except.noConfusion hp

/-- C6 witness: the assignment references replica `1` but the segment table
holds only replica `0`, so the stitcher fails with InputShapeError. -/
theorem stitch_trajs_c6_witness :
    stitch_trajs [[[(0 : ℤ)]]] [[1]] [0] = .error .InputShapeError :=
  stitch_trajs_absent_reference_error [[[(0 : ℤ)]]] [[1]] [0] 0 0 [1] 1
    (by decide) (by decide) rfl rfl (Or.inl (by decide))

/-! ## Transition matrix: counting characterization -/

theorem npIdx_lt {N : ℕ} {v : ℤ} {a : ℕ} (h : npIdx N v = some a) : a < N := by
  unfold npIdx at h
  split at h
  · rename_i hc
    cases h
    omega
  · split at h
    · rename_i hc
      cases h
      omega
    · cases h

theorem npIdx_inrange {N : ℕ} {v : ℤ} (h0 : 0 ≤ v) (hN : v < (N : ℤ)) :
    npIdx N v = some v.toNat := by
  unfold npIdx
  rw [if_pos ⟨h0, hN⟩]

theorem npIdx_none_iff {N : ℕ} {v : ℤ} :
    npIdx N v = none ↔ v < -(N : ℤ) ∨ (N : ℤ) ≤ v := by
  unfold npIdx
  constructor
  · intro h
    split at h
    · cases h
    · split at h
      · cases h
      · omega
  · intro h
    rw [if_neg (by omega), if_neg (by omega)]

theorem rowSum_zero_fun (N i : ℕ) : rowSum N (fun _ _ => 0) i = 0 := by
  simp [rowSum]

theorem list_range_sum_eq (N : ℕ) (g : ℕ → ℕ) :
    ((List.range N).map g).sum = ∑ j in Finset.range N, g j := rfl

theorem rowSum_bump (N : ℕ) (c : ℕ → ℕ → ℕ) (a b i : ℕ) (hb : b < N) :
    rowSum N (bump c a b) i = rowSum N c i + if i = a then 1 else 0 := by
  unfold rowSum
  rw [list_range_sum_eq, list_range_sum_eq]
  have hstep : ∀ j, bump c a b i j = c i j + if i = a ∧ j = b then 1 else 0 := by
    intro j
    unfold bump
    by_cases h : i = a ∧ j = b
    · simp [h]
    · simp [h]
  rw [Finset.sum_congr rfl (fun j _ => hstep j), Finset.sum_add_distrib]
  congr 1
  by_cases hia : i = a
  · simp only [hia, true_and, if_true]
    rw [Finset.sum_ite_eq' (Finset.range N) b (fun _ => 1)]
    simp [hb]
  · simp [hia]

theorem countPairs_char (N : ℕ) :
    ∀ (ts : List ℤ) (prev : ℤ) (c : ℕ → ℕ → ℕ),
      (0 ≤ prev ∧ prev < (N : ℤ)) → (∀ v ∈ ts, 0 ≤ v ∧ v < (N : ℤ)) →
      ∃ c', countPairs N prev ts c = .ok c' ∧
        (∀ a b : ℕ, c' a b = c a b +
          ((prev :: ts).zip ts).countP (fun p => decide (p.1 = (a : ℤ) ∧ p.2 = (b : ℤ)))) ∧
        (∀ i : ℕ, rowSum N c' i = rowSum N c i +
          ((prev :: ts).zip ts).countP (fun p => decide (p.1 = (i : ℤ))))
  | [], prev, c, _, _ => ⟨c, rfl, by intro a b; simp, by intro i; simp⟩
  | x :: xs, prev, c, hp, hv => by
    have hx := hv x (List.mem_cons_self x xs)
    have ha0 : npIdx N prev = some prev.toNat := npIdx_inrange hp.1 hp.2
    have hb0 : npIdx N x = some x.toNat := npIdx_inrange hx.1 hx.2
    obtain ⟨c', hok, hab, hrow⟩ := countPairs_char N xs x (bump c prev.toNat x.toNat)
      hx (fun v hvmem => hv v (List.mem_cons_of_mem x hvmem))
    refine ⟨c', ?_, ?_, ?_⟩
    · simp only [countPairs, ha0, hb0]
      exact hok
    · intro a b
      rw [hab a b, List.zip_cons_cons, List.countP_cons]
      simp only [bump, decide_eq_true_eq]
      by_cases h1 : prev = (a : ℤ) ∧ x = (b : ℤ)
      · rw [if_pos (by omega : a = prev.toNat ∧ b = x.toNat), if_pos h1]
        omega
      · rw [if_neg (by omega : ¬(a = prev.toNat ∧ b = x.toNat)), if_neg h1]
        omega
    · intro i
      rw [hrow i, rowSum_bump N c prev.toNat x.toNat i (by omega),
        List.zip_cons_cons, List.countP_cons]
      simp only [decide_eq_true_eq]
      by_cases h1 : prev = (i : ℤ)
      · rw [if_pos (by omega : i = prev.toNat), if_pos h1]
        omega
      · rw [if_neg (by omega : ¬ i = prev.toNat), if_neg h1]
        omega

theorem zip_tail_fst : ∀ (l : List ℤ), (l.zip l.tail).map Prod.fst = l.dropLast
  | [] => rfl
  | [_] => rfl
  | a :: b :: t => by
    have ih := zip_tail_fst (b :: t)
    simp only [List.tail_cons, List.zip_cons_cons, List.map_cons] at ih ⊢
    rw [ih]
    rfl

theorem transmtx_counts (traj : List ℤ) (N : ℕ)
    (hval : ∀ v ∈ traj, 0 ≤ v ∧ v < (N : ℤ)) :
    ∃ c', (match traj with
           | [] => (.ok (fun _ _ => 0) : Except AErr (ℕ → ℕ → ℕ))
           | t :: ts => countPairs N t ts (fun _ _ => 0)) = .ok c' ∧
      (∀ a b : ℕ, c' a b = (traj.zip traj.tail).countP
          (fun p => decide (p.1 = (a : ℤ) ∧ p.2 = (b : ℤ)))) ∧
      (∀ i : ℕ, rowSum N c' i
          = (traj.zip traj.tail).countP (fun p => decide (p.1 = (i : ℤ)))) := by
  cases traj with
  | nil =>
    refine ⟨_, rfl, ?_, ?_⟩
    · intro a b
      simp
    · intro i
      simp [rowSum_zero_fun]
  | cons t ts =>
    obtain ⟨c', hok, hab, hrow⟩ := countPairs_char N ts t (fun _ _ => 0)
      (hval t (List.mem_cons_self t ts)) (fun v hv => hval v (List.mem_cons_of_mem t hv))
    refine ⟨c', hok, ?_, ?_⟩
    · intro a b
      rw [hab a b]
      simp
    · intro i
      rw [hrow i, rowSum_zero_fun]
      simp

theorem sum_map_div {α : Type} (l : List α) (f : α → ℚ) (r : ℚ) :
    (l.map (fun x => f x / r)).sum = (l.map f).sum / r := by
  induction l with
  | nil => simp
  | cons x xs ih => simp [ih, add_div]

/-- C5: for every trajectory with all values in `[0, N)` and
`normalize = True`, the builder returns an `N × N` matrix with nonnegative
entries in which every row `i` with an observed outgoing transition (i.e.
`i` occurs in the trajectory minus its last sample) sums to `1`, and every
other row is all zeros (the `0/0` case overridden to `0`); concretely,
`[0,1,2,1,0]` with `N = 3` gives `[[0,1,0],[1/2,0,1/2],[0,1,0]]`. -/
theorem traj2transmtx_row_stochastic :
    (∀ (traj : List ℤ) (N : ℕ), (∀ v ∈ traj, 0 ≤ v ∧ v < (N : ℤ)) →
      ∃ M, traj2transmtx traj N true = .ok M ∧
        M.length = N ∧
        (∀ row ∈ M, row.length = N ∧ ∀ q ∈ row, 0 ≤ q) ∧
        (∀ i, i < N → ∃ row, M.get? i = some row ∧
          (((i : ℤ) ∈ traj.dropLast) → row.sum = 1) ∧
          (((i : ℤ) ∉ traj.dropLast) → ∀ q ∈ row, q = 0))) ∧
    traj2transmtx [0, 1, 2, 1, 0] 3 true = .ok [[0, 1, 0], [1/2, 0, 1/2], [0, 1, 0]] := by
  constructor
  · intro traj N hval
    obtain ⟨c', hok, hab, hrow⟩ := transmtx_counts traj N hval
    refine ⟨(List.range N).map (fun i => (List.range N).map fun j =>
        if (rowSum N c' i : ℚ) = 0 then 0 else (c' i j : ℚ) / (rowSum N c' i : ℚ)),
      ?_, ?_, ?_, ?_⟩
    · simp only [traj2transmtx, hok, if_true]
    · rw [List.length_map, List.length_range]
    · intro row hmem
      obtain ⟨i, -, rfl⟩ := List.mem_map.mp hmem
      constructor
      · rw [List.length_map, List.length_range]
      · intro q hq
        obtain ⟨j, -, rfl⟩ := List.mem_map.mp hq
        by_cases h0 : (rowSum N c' i : ℚ) = 0
        · rw [if_pos h0]
        · rw [if_neg h0]
          exact div_nonneg (Nat.cast_nonneg _) (Nat.cast_nonneg _)
    · intro i hi
      refine ⟨(List.range N).map fun j =>
          if (rowSum N c' i : ℚ) = 0 then 0 else (c' i j : ℚ) / (rowSum N c' i : ℚ),
        ?_, ?_, ?_⟩
      · rw [List.get?_map, List.get?_range hi]
        simp only [Option.map_some']
      · intro hmem
        have hpos : 0 < (traj.zip traj.tail).countP (fun p => decide (p.1 = (i : ℤ))) := by
          rw [List.countP_pos]
          rw [← zip_tail_fst traj] at hmem
          obtain ⟨p, hp, hfst⟩ := List.mem_map.mp hmem
          exact ⟨p, hp, by simp [hfst]⟩
        have hrs : rowSum N c' i ≠ 0 := by
          rw [hrow i]
          omega
        have hrsQ : (rowSum N c' i : ℚ) ≠ 0 := Nat.cast_ne_zero.mpr hrs
        simp only [if_neg hrsQ]
        rw [sum_map_div]
        have hsum : (List.map (fun j => (c' i j : ℚ)) (List.range N)).sum
            = ((rowSum N c' i : ℕ) : ℚ) := by
          rw [rowSum, Nat.cast_list_sum, List.map_map]
          rfl
        rw [hsum]
        exact div_self hrsQ
      · intro hnmem q hq
        obtain ⟨j, -, rfl⟩ := List.mem_map.mp hq
        have hcz : (traj.zip traj.tail).countP (fun p => decide (p.1 = (i : ℤ))) = 0 := by
          rw [List.countP_eq_zero]
          intro p hp hpred
          apply hnmem
          rw [← zip_tail_fst traj]
          simp only [decide_eq_true_eq] at hpred
          exact List.mem_map.mpr ⟨p, hp, hpred⟩
        have hrs : (rowSum N c' i : ℚ) = 0 := by
          rw [hrow i, hcz]
          simp
        rw [if_pos hrs]
  · simp [traj2transmtx, countPairs, npIdx, bump, rowSum, List.range_succ]
    norm_num

/-- C5 witness: the row-stochasticity theorem applied to the claim's
concrete scenario (`[0,1,2,1,0]`, `N = 3`). -/
theorem traj2transmtx_c5_witness :
    (∀ v ∈ ([0, 1, 2, 1, 0] : List ℤ), 0 ≤ v ∧ v < (3 : ℤ)) ∧
    ∃ M, traj2transmtx [0, 1, 2, 1, 0] 3 true = .ok M ∧
      M.length = 3 ∧
      (∀ row ∈ M, row.length = 3 ∧ ∀ q ∈ row, 0 ≤ q) ∧
      (∀ i, i < 3 → ∃ row, M.get? i = some row ∧
        (((i : ℤ) ∈ ([0, 1, 2, 1, 0] : List ℤ).dropLast) → row.sum = 1) ∧
        (((i : ℤ) ∉ ([0, 1, 2, 1, 0] : List ℤ).dropLast) → ∀ q ∈ row, q = 0)) :=
  ⟨by decide, traj2transmtx_row_stochastic.1 [0, 1, 2, 1, 0] 3 (by decide)⟩

theorem countPairs_error_shape (N : ℕ) :
    ∀ (ts : List ℤ) (prev : ℤ) (c : ℕ → ℕ → ℕ) {e : AErr},
      countPairs N prev ts c = .error e → e = .IndexRangeError
  | [], _, _, _, h => Except.noConfusion h
  | x :: xs, prev, c, e, h => by
    unfold countPairs at h
    split at h
    · exact countPairs_error_shape N xs x _ h
    · exact (Except.error.inj h).symm

theorem countPairs_error_iff (N : ℕ) :
    ∀ (ts : List ℤ) (prev : ℤ) (c : ℕ → ℕ → ℕ),
      countPairs N prev ts c = .error .IndexRangeError ↔
        (ts ≠ [] ∧ ∃ v ∈ prev :: ts, npIdx N v = none)
  | [], prev, c => by
    constructor
    · intro h
      exact Except.noConfusion h
    · rintro ⟨h, -⟩
      exact absurd rfl h
  | x :: xs, prev, c => by
    constructor
    · intro h
      unfold countPairs at h
      split at h
      · rename_i a b ha hb
        obtain ⟨hne, v, hv, hnone⟩ := (countPairs_error_iff N xs x (bump c a b)).mp h
        exact ⟨List.cons_ne_nil x xs, v, List.mem_cons_of_mem prev hv, hnone⟩
      · rename_i hmiss
        rcases hp : npIdx N prev with _ | a
        · exact ⟨List.cons_ne_nil x xs, prev, List.mem_cons_self prev _, hp⟩
        · rcases hx : npIdx N x with _ | b
          · exact ⟨List.cons_ne_nil x xs, x,
              List.mem_cons_of_mem prev (List.mem_cons_self x xs), hx⟩
          · exact (hmiss a b hp hx).elim
    · rintro ⟨-, v, hv, hnone⟩
      unfold countPairs
      rcases hp : npIdx N prev with _ | a
      · rfl
      · rcases hx : npIdx N x with _ | b
        · rfl
        · rcases List.mem_cons.mp hv with rfl | hv2
          · rw [hp] at hnone
            exact Option.noConfusion hnone
          · rcases List.mem_cons.mp hv2 with rfl | hv3
            · rw [hx] at hnone
              exact Option.noConfusion hnone
            · refine (countPairs_error_iff N xs x (bump c a b)).mpr ?_
              refine ⟨?_, v, List.mem_cons_of_mem x hv3, hnone⟩
              intro hxs
              rw [hxs] at hv3
              cases hv3

theorem traj2transmtx_cons (t : ℤ) (ts : List ℤ) (N : ℕ) (nrm : Bool) :
    traj2transmtx (t :: ts) N nrm =
      match countPairs N t ts (fun _ _ => 0) with
      | .error e => .error e
      | .ok c =>
        if nrm then
          .ok ((List.range N).map fun i => (List.range N).map fun j =>
            if (rowSum N c i : ℚ) = 0 then 0 else (c i j : ℚ) / (rowSum N c i : ℚ))
        else
          .ok ((List.range N).map fun i => (List.range N).map fun j => ((c i j : ℕ) : ℚ)) :=
  rfl

/-- C7 (amended): the transition-matrix builder fails with IndexRangeError
exactly when the trajectory has at least two samples and some value lies
outside `[-N, N)`; values in `[-N, -1]` are accepted and wrap around
(numpy negative indexing), so a negative value inside `[-N, 0)` does NOT
make it fail, refuting the claim's "outside `[0, N)`" reading
(`traj2transmtx_c7_counterexample`). -/
theorem traj2transmtx_error_iff (traj : List ℤ) (N : ℕ) (nrm : Bool) :
    traj2transmtx traj N nrm = .error .IndexRangeError ↔
      (2 ≤ traj.length ∧ ∃ v ∈ traj, v < -(N : ℤ) ∨ (N : ℤ) ≤ v) := by
  cases traj with
  | nil =>
    constructor
    · intro h
      cases nrm <;> exact Except.noConfusion h
    · rintro ⟨h, -⟩
      simp at h
  | cons t ts =>
    have hconv : (∃ v ∈ t :: ts, npIdx N v = none) ↔
        (∃ v ∈ t :: ts, v < -(N : ℤ) ∨ (N : ℤ) ≤ v) := by
      constructor
      · intro ⟨v, hv, hn⟩
        exact ⟨v, hv, npIdx_none_iff.mp hn⟩
      · intro ⟨v, hv, hn⟩
        exact ⟨v, hv, npIdx_none_iff.mpr hn⟩
    have hlen : (2 ≤ (t :: ts).length) ↔ ts ≠ [] := by
      cases ts <;> simp
    constructor
    · intro h
      rw [traj2transmtx_cons] at h
      cases hc : countPairs N t ts (fun _ _ => 0) with
      | error e =>
        rw [hc] at h
        have he : e = .IndexRangeError := Except.error.inj h
        rw [he] at hc
        obtain ⟨hne, hex⟩ := (countPairs_error_iff N ts t _).mp hc
        exact ⟨hlen.mpr hne, hconv.mp hex⟩
      | ok c =>
        rw [hc] at h
        cases nrm <;> exact Except.noConfusion h
    · intro ⟨h2, hex⟩
      have herr : countPairs N t ts (fun _ _ => 0) = .error .IndexRangeError :=
        (countPairs_error_iff N ts t _).mpr ⟨hlen.mp h2, hconv.mpr hex⟩
      rw [traj2transmtx_cons, herr]

/-- C7 counterexample: the trajectory `[-1, 0]` with `N = 2` contains the
value `-1` outside `[0, 2)`, yet the builder succeeds: numpy wraps `-1` to
row `1`, yielding `[[0, 0], [1, 0]]` instead of raising IndexRangeError. -/
theorem traj2transmtx_c7_counterexample :
    traj2transmtx [-1, 0] 2 true = .ok [[0, 0], [1, 0]] := by
  simp [traj2transmtx, countPairs, npIdx, bump, rowSum, List.range_succ]

/-- C10: for every `N ≥ 1` and every trajectory with fewer than two
samples, the builder succeeds and returns the `N × N` all-zero matrix,
with and without normalization (each zero row's `0/0` is overridden to
zeros). -/
theorem traj2transmtx_short_all_zero (N : ℕ) (traj : List ℤ) (b : Bool)
    (hN : 1 ≤ N) (hlen : traj.length < 2) :
    traj2transmtx traj N b = .ok (zeroMtx N) := by
  have hz : ∀ i, rowSum N (fun _ _ => (0 : ℕ)) i = 0 := rowSum_zero_fun N
  cases traj with
  | nil =>
    unfold traj2transmtx zeroMtx
    cases b <;> simp [hz]
  | cons t ts =>
    cases ts with
    | nil =>
      unfold traj2transmtx zeroMtx countPairs
      cases b <;> simp [hz]
    | cons x xs =>
      simp at hlen
      omega

/-- C10 witness: `N = 2`, single-sample trajectory `[7]` (whose value even
exceeds `N - 1`, which is irrelevant because no transition is scanned),
normalized: the all-zero `2 × 2` matrix. -/
theorem traj2transmtx_c10_witness :
    (1 ≤ 2) ∧ (([7] : List ℤ).length < 2) ∧
    traj2transmtx [7] 2 true = .ok (zeroMtx 2) :=
  ⟨by decide, by decide, traj2transmtx_short_all_zero 2 [7] true (by decide) (by decide)⟩

/-! ## Transit detector: scan safety and alternation invariant -/

theorem stepZero_spec (k t v : ℤ) (s : TransitState) (h : TransitInv k s) :
    ∃ s1, stepZero k t v s = .ok s1 ∧ TransitInv k s1 ∧
      s1.end0 = (s.end0 || decide (v = 0)) ∧ s1.endk = s.endk ∧
      (v = 0 → s1.lastVisited = some 0) := by
  obtain ⟨h1, h2, h3, h4⟩ := h
  by_cases hv : v = 0
  · subst hv
    by_cases hL0 : s.lastVisited = some 0
    · refine ⟨{ s with end0 := true, lastVisited := some 0 }, ?_, ?_, ?_, rfl, fun _ => rfl⟩
      · simp [stepZero, hL0]
      · refine ⟨fun hn => Option.noConfusion hn, ?_, ?_, ?_⟩
        · intro x hx
          exact Or.inl (Option.some.inj hx).symm
        · intro _
          exact h3 hL0
        · intro hk
          exact h4 (hL0.trans hk)
      · simp
    · cases hL : s.lastVisited with
      | none =>
        refine ⟨{ s with end0 := true, t0 := s.t0 ++ [t], lastVisited := some 0 },
          ?_, ?_, ?_, rfl, fun _ => rfl⟩
        · simp [stepZero, hL]
        · obtain ⟨e1, e2⟩ := h1 hL
          refine ⟨fun hn => Option.noConfusion hn,
            fun x hx => Or.inl (Option.some.inj hx).symm, ?_, ?_⟩
          · intro _
            refine ⟨by simp, ?_, ?_⟩ <;> simp [e1, e2]
          · intro hk
            refine ⟨Or.inl (Option.some.inj hk).symm, ?_, ?_⟩ <;> simp [e1, e2]
        · simp
      | some x =>
        have hLk : s.lastVisited = some k := by
          rcases h2 x hL with h0 | hk
          · exact absurd (by rw [hL, h0]) hL0
          · rw [hL, hk]
        have hk0 : k ≠ 0 := by
          intro hk
          exact hL0 (by rw [hLk, hk])
        obtain ⟨htk, hb, ha⟩ := h4 hLk
        have htkne : s.tk ≠ [] := htk.resolve_left hk0
        obtain ⟨tl, htl⟩ := Option.isSome_iff_exists.mp (List.getLast?_isSome.mpr htkne)
        refine ⟨{ s with end0 := true, t0 := s.t0 ++ [t], tk0 := s.tk0 ++ [t - tl], lastVisited := some 0 }, ?_, ?_, ?_, rfl, fun _ => rfl⟩
        · simp [stepZero, hL0, hLk, htl, hk0]
        · refine ⟨fun hn => Option.noConfusion hn,
            fun x hx => Or.inl (Option.some.inj hx).symm, ?_, ?_⟩
          · intro _
            refine ⟨by simp, ?_, ?_⟩ <;> simp <;> omega
          · intro hk
            exact absurd (Option.some.inj hk).symm hk0
        · simp
  · refine ⟨s, ?_, ⟨h1, h2, h3, h4⟩, ?_, rfl, fun hc => absurd hc hv⟩
    · simp [stepZero, hv]
    · simp [hv]

theorem stepK_spec (k t v : ℤ) (s : TransitState) (h : TransitInv k s)
    (h0 : v = 0 → s.lastVisited = some 0) :
    ∃ s1, stepK k t v s = .ok s1 ∧ TransitInv k s1 ∧
      s1.end0 = s.end0 ∧ s1.endk = (s.endk || decide (v = k)) := by
  obtain ⟨h1, h2, h3, h4⟩ := h
  by_cases hv : v = k
  · by_cases hLk : s.lastVisited = some k
    · refine ⟨{ s with endk := true, lastVisited := some k }, ?_, ?_, rfl, ?_⟩
      · simp [stepK, hv, hLk]
      · refine ⟨fun hn => Option.noConfusion hn, ?_, ?_, ?_⟩
        · intro x hx
          exact Or.inr (Option.some.inj hx).symm
        · intro hkz
          exact h3 (hLk.trans hkz)
        · intro _
          exact h4 hLk
      · simp [hv]
    · cases hL : s.lastVisited with
      | none =>
        have hk0 : k ≠ 0 := by
          intro hk
          have := h0 (hv.trans hk)
          rw [hL] at this
          exact Option.noConfusion this
        refine ⟨{ s with endk := true, tk := s.tk ++ [t], lastVisited := some k }, ?_, ?_, rfl, ?_⟩
        · simp [stepK, hv, hL]
        · obtain ⟨e1, e2⟩ := h1 hL
          refine ⟨fun hn => Option.noConfusion hn,
            fun x hx => Or.inr (Option.some.inj hx).symm, ?_, ?_⟩
          · intro hkz
            exact absurd (Option.some.inj hkz) hk0
          · intro _
            exact ⟨Or.inr (by simp), by simp [e1, e2], by simp [e1, e2]⟩
        · simp [hv]
      | some x =>
        have hL0 : s.lastVisited = some 0 := by
          rcases h2 x hL with hx0 | hxk
          · rw [hL, hx0]
          · exact absurd (by rw [hL, hxk]) hLk
        have hk0 : k ≠ 0 := by
          intro hk
          exact hLk (by rw [hL0, hk])
        obtain ⟨ht0ne, ha, hb⟩ := h3 hL0
        obtain ⟨tl, htl⟩ := Option.isSome_iff_exists.mp (List.getLast?_isSome.mpr ht0ne)
        refine ⟨{ s with endk := true, tk := s.tk ++ [t], t0k := s.t0k ++ [t - tl], lastVisited := some k }, ?_, ?_, rfl, ?_⟩
        · have hk0' : ¬ (0 : ℤ) = k := fun he => hk0 he.symm
          simp [stepK, hv, hLk, hL0, htl, hk0']
        · refine ⟨fun hn => Option.noConfusion hn,
            fun x hx => Or.inr (Option.some.inj hx).symm, ?_, ?_⟩
          · intro hkz
            exact absurd (Option.some.inj hkz) hk0
          · intro _
            refine ⟨Or.inr (by simp), ?_, ?_⟩ <;> simp <;> omega
        · simp [hv]
  · refine ⟨s, ?_, ⟨h1, h2, h3, h4⟩, rfl, ?_⟩
    · simp [stepK, hv]
    · simp [hv]

theorem transitStep_spec (k t v : ℤ) (s : TransitState) (h : TransitInv k s) :
    ∃ s1, transitStep k t v s = .ok s1 ∧ TransitInv k s1 ∧
      s1.end0 = (s.end0 || decide (v = 0)) ∧ s1.endk = (s.endk || decide (v = k)) := by
  obtain ⟨sa, hsa, hinva, he0, hek, hlast⟩ := stepZero_spec k t v s h
  obtain ⟨sb, hsb, hinvb, he0b, hekb⟩ := stepK_spec k t v sa hinva hlast
  refine ⟨sb, ?_, hinvb, ?_, ?_⟩
  · simp only [transitStep, hsa, hsb]
  · rw [he0b, he0]
  · rw [hekb, hek]

theorem initState_inv (k : ℤ) : TransitInv k initState :=
  ⟨fun _ => ⟨rfl, rfl⟩, fun _ hx => Option.noConfusion hx,
   fun hx => Option.noConfusion hx, fun hx => Option.noConfusion hx⟩

theorem transitScanGo_spec (k : ℤ) :
    ∀ (l : List ℤ) (t : ℕ) (s : TransitState), TransitInv k s →
      ∃ s1, transitScanGo k t l s = .ok s1 ∧ TransitInv k s1 ∧
        s1.end0 = (s.end0 || l.any (fun v => decide (v = 0))) ∧
        s1.endk = (s.endk || l.any (fun v => decide (v = k)))
  | [], t, s, h => ⟨s, rfl, h, by simp, by simp⟩
  | v :: vs, t, s, h => by
    obtain ⟨sa, hsa, hinva, he0, hek⟩ := transitStep_spec k (t : ℤ) v s h
    obtain ⟨sb, hsb, hinvb, he0b, hekb⟩ := transitScanGo_spec k vs (t + 1) sa hinva
    refine ⟨sb, ?_, hinvb, ?_, ?_⟩
    · simp only [transitScanGo, hsa, hsb]
    · rw [he0b, he0, List.any_cons, Bool.or_assoc]
    · rw [hekb, hek, List.any_cons, Bool.or_assoc]

theorem transitScan_spec (traj : List ℤ) (N : ℤ) :
    ∃ s, transitScan traj N = .ok s ∧ TransitInv (N - 1) s ∧
      s.end0 = traj.any (fun v => decide (v = 0)) ∧
      s.endk = traj.any (fun v => decide (v = N - 1)) := by
  obtain ⟨s, hok, hinv, he0, hek⟩ :=
    transitScanGo_spec (N - 1) traj 0 initState (initState_inv (N - 1))
  exact ⟨s, hok, hinv, by simpa [initState] using he0, by simpa [initState] using hek⟩

/-- C3: for every trajectory, the scan's forward (`0→k`) and backward
(`k→0`) duration lists differ in length by at most 1; reconciliation
(dropping the last element of the strictly longer list) makes the lengths
equal, and the round-trip list is their element-wise sum. -/
theorem transit_pairing_invariant (traj : List ℤ) (N : ℤ) :
    ∃ s, transitScan traj N = .ok s ∧
      (s.t0k.length ≤ s.tk0.length + 1 ∧ s.tk0.length ≤ s.t0k.length + 1) ∧
      ∃ f b, reconcile s.t0k s.tk0 = (f, b) ∧
        detectOne traj N = .ok (f, b, List.zipWith (· + ·) f b, s.end0, s.endk) ∧
        f.length = b.length ∧
        (List.zipWith (· + ·) f b).length = f.length ∧
        (∀ i fi bi, f.get? i = some fi → b.get? i = some bi →
          (List.zipWith (· + ·) f b).get? i = some (fi + bi)) := by
  obtain ⟨s, hok, hinv, -, -⟩ := transitScan_spec traj N
  have hbounds : s.t0k.length ≤ s.tk0.length + 1 ∧ s.tk0.length ≤ s.t0k.length + 1 := by
    rcases hl : s.lastVisited with _ | x
    · obtain ⟨e1, e2⟩ := hinv.1 hl
      rw [e1, e2]
      simp
    · rcases hinv.2.1 x hl with rfl | rfl
      · have := hinv.2.2.1 hl
        omega
      · have := hinv.2.2.2 hl
        omega
  have hrec : (reconcile s.t0k s.tk0).1.length = (reconcile s.t0k s.tk0).2.length := by
    unfold reconcile
    split
    · split
      · rename_i hne hgt
        simp only [List.length_dropLast]
        omega
      · rename_i hne hle
        simp only [List.length_dropLast]
        omega
    · rename_i heq
      simpa using heq
  refine ⟨s, hok, hbounds, (reconcile s.t0k s.tk0).1, (reconcile s.t0k s.tk0).2,
    Prod.mk.eta.symm, ?_, hrec, ?_, ?_⟩
  · simp only [detectOne, transitScan] at hok ⊢
    rw [hok]
  · rw [List.length_zipWith, hrec, Nat.min_self]
  · intro i fi bi hf hb
    exact (List.get?_zipWith_eq_some _ _ _ _ _).mpr ⟨fi, bi, hf, hb, rfl⟩

/-- C4: on the single trajectory `[0,1,2,1,0,2,0]` with `N = 3` (so
`k = 2`) and no time step, the detector returns `t_forward = [2,1]`,
`t_backward = [2,1]`, `t_roundtrip = [4,2]` (durations in steps). -/
theorem plot_transit_time_concrete :
    plot_transit_time [[0, 1, 2, 1, 0, 2, 0]] 3
      = .ok ([[2, 1]], [[2, 1]], [[4, 2]], "step") := by
  decide

theorem detectOne_shape (traj : List ℤ) (N : ℤ) :
    ∃ f b rt e0 ek, detectOne traj N = .ok (f, b, rt, e0, ek) ∧
      e0 = traj.any (fun v => decide (v = 0)) ∧
      ek = traj.any (fun v => decide (v = N - 1)) := by
  obtain ⟨s, hok, -, he0, hek⟩ := transitScan_spec traj N
  refine ⟨(reconcile s.t0k s.tk0).1, (reconcile s.t0k s.tk0).2,
    List.zipWith (· + ·) (reconcile s.t0k s.tk0).1 (reconcile s.t0k s.tk0).2,
    s.end0, s.endk, ?_, he0, hek⟩
  simp only [detectOne, hok]

theorem goConfigs_no_events (N : ℤ) :
    ∀ (ls : List (List ℤ)) (sci : Bool),
      (∀ traj ∈ ls, (0 : ℤ) ∉ traj ∨ (N - 1) ∉ traj) →
      goConfigs N ls sci
        = .ok (ls.map (fun _ => []), ls.map (fun _ => []), ls.map (fun _ => []))
  | [], _, _ => rfl
  | traj :: rest, sci, h => by
    obtain ⟨f, b, rt, e0, ek, hone, he0, hek⟩ := detectOne_shape traj N
    have hff : (e0 && ek) = false := by
      rcases h traj (List.mem_cons_self traj rest) with hmem | hmem
      · have : traj.any (fun v => decide (v = 0)) = false := by
          rw [List.any_eq_false]
          intro v hv
          simp only [decide_eq_true_eq]
          intro he
          exact hmem (he ▸ hv)
        rw [he0, this]
        simp
      · have : traj.any (fun v => decide (v = N - 1)) = false := by
          rw [List.any_eq_false]
          intro v hv
          simp only [decide_eq_true_eq]
          intro he
          exact hmem (he ▸ hv)
        rw [hek, this]
        simp
    have hrest := goConfigs_no_events N rest sci (fun x hx => h x (List.mem_cons_of_mem traj hx))
    simp only [goConfigs, hone, hff, hrest]
    rfl

/-- C9: a trajectory list in which every trajectory misses boundary `0` or
misses boundary `k = N - 1` makes the detector succeed (no exception) with
empty forward, backward and round-trip lists for every configuration. -/
theorem plot_transit_time_no_boundary_empty (trajs : List (List ℤ)) (N : ℤ)
    (hne : trajs ≠ [])
    (h : ∀ traj ∈ trajs, (0 : ℤ) ∉ traj ∨ (N - 1) ∉ traj) :
    plot_transit_time trajs N
      = .ok (trajs.map (fun _ => []), trajs.map (fun _ => []),
          trajs.map (fun _ => []), "step") := by
  have h0 : trajs.get? 0 = some trajs.headI := get?_zero_of_ne_nil hne
  simp only [plot_transit_time, h0, goConfigs_no_events N trajs false h]

/-- C9 witness: the single trajectory `[1, 1]` stays strictly inside
`(0, 2)`, so with `N = 3` the detector returns empty lists. -/
theorem plot_transit_time_c9_witness :
    (([[1, 1]] : List (List ℤ)) ≠ []) ∧
    plot_transit_time [[1, 1]] 3 = .ok ([[]], [[]], [[]], "step") := by
  refine ⟨by decide, ?_⟩
  rw [plot_transit_time_no_boundary_empty [[1, 1]] 3 (by decide) (by decide)]
  decide

theorem sciCheck_error_shape {sci : Bool} {f b rt : List ℤ} {e : AErr}
    (h : sciCheck sci f b rt = .error e) : e = .ValueError := by
  unfold sciCheck at h
  split at h
  · exact Except.noConfusion h
  · split at h
    · exact (Except.error.inj h).symm
    · exact Except.noConfusion h

theorem goConfigs_error_shape (N : ℤ) :
    ∀ (ls : List (List ℤ)) (sci : Bool) {e : AErr},
      goConfigs N ls sci = .error e → e = .ValueError
  | [], _, _, h => Except.noConfusion h
  | traj :: rest, sci, e, h => by
    obtain ⟨f, b, rt, e0, ek, hone, -, -⟩ := detectOne_shape traj N
    rw [goConfigs, hone] at h
    simp only at h
    split at h
    · cases hs : sciCheck sci f b rt with
      | error e1 =>
        rw [hs] at h
        rw [← Except.error.inj h]
        exact sciCheck_error_shape hs
      | ok sci1 =>
        rw [hs] at h
        simp only at h
        cases hr : goConfigs N rest sci1 with
        | error e2 =>
          rw [hr] at h
          rw [← Except.error.inj h]
          exact goConfigs_error_shape N rest sci1 hr
        | ok out =>
          rw [hr] at h
          obtain ⟨o1, o2, o3⟩ := out
          exact Except.noConfusion h
    · cases hr : goConfigs N rest sci with
      | error e2 =>
        rw [hr] at h
        rw [← Except.error.inj h]
        exact goConfigs_error_shape N rest sci hr
      | ok out =>
        rw [hr] at h
        obtain ⟨o1, o2, o3⟩ := out
        exact Except.noConfusion h

/-- C8 (amended): the transit-event detector never fails with
IndexRangeError: the per-trajectory scan is total (trajectory values are
only compared against the boundaries, never used as indices), so a value
exceeding `N - 1` simply never matches boundary `k` and produces no event;
every run either succeeds, or fails with the IndexError of `len(trajs[0])`
on an empty input list, or with the ValueError of the empty `np.max` on
line 364 — never with IndexRangeError.  The claim's IndexRangeError on `N`
smaller than the largest value is refuted by
`plot_transit_time_c8_counterexample`. -/
theorem plot_transit_time_never_indexrange :
    (∀ (traj : List ℤ) (N : ℤ), ∃ s, transitScan traj N = .ok s) ∧
    (∀ (trajs : List (List ℤ)) (N : ℤ),
      (∃ out, plot_transit_time trajs N = .ok out) ∨
      plot_transit_time trajs N = .error .IndexError ∨
      plot_transit_time trajs N = .error .ValueError) := by
  constructor
  · intro traj N
    obtain ⟨s, hok, -, -, -⟩ := transitScan_spec traj N
    exact ⟨s, hok⟩
  · intro trajs N
    cases hres : plot_transit_time trajs N with
    | ok out => exact Or.inl ⟨out, rfl⟩
    | error e =>
      refine Or.inr ?_
      unfold plot_transit_time at hres
      split at hres
      · rw [← Except.error.inj hres]
        exact Or.inl rfl
      · split at hres
        · rename_i e1 hg
          rw [← Except.error.inj hres, goConfigs_error_shape N trajs false hg]
          exact Or.inr rfl
        · exact Except.noConfusion hres

/-- C8 counterexample: the trajectory `[1, 5]` has largest value `5 > 2 =
N - 1`, yet the detector succeeds and returns empty duration lists rather
than raising IndexRangeError. -/
theorem plot_transit_time_c8_counterexample :
    plot_transit_time [[1, 5]] 3 = .ok ([[]], [[]], [[]], "step") := by
  decide

/-- C3 witness: the pairing invariant applied to the trajectory
`[0, 2, 0]` with `N = 3`: one forward event of duration 1, one backward
event of duration 1, round-trip `1 + 1 = 2`, with the inner element
hypotheses discharged at index 0. -/
theorem transit_pairing_c3_witness :
    ∃ s, transitScan [0, 2, 0] 3 = .ok s ∧
      ∃ f b, reconcile s.t0k s.tk0 = (f, b) ∧
        f.get? 0 = some 1 ∧ b.get? 0 = some 1 ∧
        (List.zipWith (· + ·) f b).get? 0 = some (1 + 1) := by
  obtain ⟨s, h1, h2, f, b, h3, h4, h5, h6, h7⟩ := transit_pairing_invariant [0, 2, 0] 3
  have hs : transitScan [0, 2, 0] 3
      = .ok ⟨some 0, [0, 2], [1], [1], [1], true, true⟩ := by decide
  rw [hs] at h1
  have hseq : s = ⟨some 0, [0, 2], [1], [1], [1], true, true⟩ := (Except.ok.inj h1).symm
  subst hseq
  have hrec : reconcile [1] [1] = ([1], [1]) := by decide
  rw [hrec] at h3
  injection h3 with hf hb
  subst hf
  subst hb
  exact ⟨_, hs, [1], [1], hrec, rfl, rfl, h7 0 1 1 rfl rfl⟩
